import Mathlib

/-!
Shallow embedding of the rustyrag repository (src/contents.rs and
src/vector.rs) for checking its natural-language specification.

Strings are modelled as `List Char` (one element per Unicode scalar value,
matching the code points of a Rust `&str`); a separate byte-level model
(`List Nat`, one element per UTF-8 byte) is used for the slice-safety
claims, since Rust slices `&str` at byte indices.
-/

namespace RustyRag

/-- Rust `char::is_whitespace`: the Unicode White_Space property. -/
def isRustWs (c : Char) : Bool :=
  (9 ≤ c.toNat && c.toNat ≤ 13) || c.toNat = 32 || c.toNat = 133 ||
  c.toNat = 160 || c.toNat = 0x1680 ||
  (0x2000 ≤ c.toNat && c.toNat ≤ 0x200A) ||
  c.toNat = 0x2028 || c.toNat = 0x2029 || c.toNat = 0x202F ||
  c.toNat = 0x205F || c.toNat = 0x3000

/-- Rust `str::trim`: drop leading and trailing whitespace code points. -/
def rustTrim (l : List Char) : List Char :=
  ((l.dropWhile isRustWs).reverse.dropWhile isRustWs).reverse

/-- Rust `str::find` with a literal pattern: index of the leftmost
occurrence of `pat` as a contiguous subsequence of `l` (here in elements;
for ASCII patterns at the positions the code slices, element index and
byte index name the same split point of the text). `List.range` is
scanned left to right, so the first index found is the least one. -/
def findSub {α : Type} [DecidableEq α] (pat l : List α) : Option Nat :=
  (List.range (l.length + 1)).find? (fun i => pat.isPrefixOf (l.drop i))

/-- Rust `str::lines` on one raw line: strip one trailing carriage return. -/
def stripCr (l : List Char) : List Char :=
  if l.getLast? = some '\r' then l.dropLast else l

/-- Rust `str::lines`: split on newline, drop a final empty segment
(a trailing newline does not produce an extra empty line), and strip one
trailing carriage return from each line. -/
def rustLines (s : List Char) : List (List Char) :=
  let parts := s.splitOn '\n'
  (match parts.getLast? with
   | some [] => parts.dropLast
   | _ => parts).map stripCr

/-- The marker `///` searched first in `parse_rust_file`. -/
def docMark : List Char := "///".toList

/-- The marker `//!` searched second in `parse_rust_file`. -/
def innerMark : List Char := "//!".toList

/-- The marker `//` searched third in `parse_rust_file`. -/
def lineMark : List Char := "//".toList

/-- The marker `/*` searched last in `parse_rust_file`. -/
def openMark : List Char := "/*".toList

/-- The marker `*/` closing a block comment in `parse_rust_file`. -/
def closeMark : List Char := "*/".toList

/-- The body of one `File::parse_rust_file` iteration after
`let line = line.trim()` (src/contents.rs lines 45-78): in block-comment
state look for `*/`, otherwise try `///`, `//!`, `//`, `/*` in that
order. Returns the next state and the sentences pushed for this line. -/
def rustClassify (inBlock : Bool) (line : List Char) : Bool × List (List Char) :=
  if inBlock then
    match findSub closeMark line with
    | some endPos => (false, [line.take endPos])
    | none => (true, [line])
  else
    match findSub docMark line with
    | some pos => (false, [rustTrim (line.drop (pos + 3))])
    | none =>
      match findSub innerMark line with
      | some pos => (false, [rustTrim (line.drop (pos + 3))])
      | none =>
        match findSub lineMark line with
        | some pos => (false, [rustTrim (line.drop (pos + 2))])
        | none =>
          match findSub openMark line with
          | some startPos =>
            let afterStart := line.drop (startPos + 2)
            match findSub closeMark afterStart with
            | some endPos => (false, [afterStart.take endPos])
            | none => (true, [afterStart])
          | none => (false, [])

/-- One iteration of the loop body of `File::parse_rust_file`
(src/contents.rs lines 42-80): trim the line, then classify it. -/
def parseRustLine (inBlock : Bool) (raw : List Char) : Bool × List (List Char) :=
  rustClassify inBlock (rustTrim raw)

/-- The loop of `File::parse_rust_file`: thread the block-comment flag
through the lines, concatenating the pushed sentences. -/
def parseRustLines : Bool → List (List Char) → List (List Char)
  | _, [] => []
  | inB, l :: ls =>
    let r := parseRustLine inB l
    r.2 ++ parseRustLines r.1 ls

/-- `File::parse_rust_file` as a function of the contents
(src/contents.rs lines 38-83): initial state is not-in-block-comment. -/
def parse_rust_file (contents : List Char) : List (List Char) :=
  parseRustLines false (rustLines contents)

/-- The code fence marker of `parse_markdown_file`. -/
def fenceMark : List Char := "```".toList

/-- The body of one `File::parse_markdown_file` iteration after
`let line = line.trim()` (src/contents.rs lines 92-99): a line starting
with the fence toggles the state and is skipped; otherwise, outside a
code block, a non-empty line not starting with a heading marker is
pushed. -/
def mdClassify (inCode : Bool) (line : List Char) : Bool × List (List Char) :=
  if fenceMark.isPrefixOf line then (!inCode, [])
  else if inCode = false ∧ line.head? ≠ some '#' ∧ line ≠ [] then (inCode, [line])
  else (inCode, [])

/-- One iteration of the loop body of `File::parse_markdown_file`
(src/contents.rs lines 89-100): trim the line, then classify it. -/
def parseMdLine (inCode : Bool) (raw : List Char) : Bool × List (List Char) :=
  mdClassify inCode (rustTrim raw)

/-- The loop of `File::parse_markdown_file`. -/
def parseMdLines : Bool → List (List Char) → List (List Char)
  | _, [] => []
  | inC, l :: ls =>
    let r := parseMdLine inC l
    r.2 ++ parseMdLines r.1 ls

/-- `File::parse_markdown_file` as a function of the contents
(src/contents.rs lines 85-103). -/
def parse_markdown_file (contents : List Char) : List (List Char) :=
  parseMdLines false (rustLines contents)

/-- The body of one `File::parse_toml_file` iteration after
`let line = line.trim()` (src/contents.rs lines 111-138): classify as
empty, comment (`#`), table header (`[` and `]`), key-value (first `=`),
or plain line, in that order. -/
def tomlClassify (line : List Char) : List (List Char) :=
  if line = [] then []
  else if line.head? = some '#' then
    ["Comment: ".toList ++ rustTrim (line.drop 1)]
  else if line.head? = some '[' ∧ line.getLast? = some ']' then
    ["Table: ".toList ++ rustTrim ((line.drop 1).take (line.length - 2))]
  else
    match findSub ['='] line with
    | some idx => [rustTrim (line.take idx) ++ " = ".toList ++ rustTrim (line.drop (idx + 1))]
    | none => [line]

/-- One iteration of the loop body of `File::parse_toml_file`
(src/contents.rs lines 108-139): trim the line, then classify it. -/
def parseTomlLine (raw : List Char) : List (List Char) :=
  tomlClassify (rustTrim raw)

/-- The loop of `File::parse_toml_file`: each line contributes its
classified sentences in order (the loop body is stateless). -/
def parseTomlLines : List (List Char) → List (List Char)
  | [] => []
  | l :: ls => parseTomlLine l ++ parseTomlLines ls

/-- `File::parse_toml_file` as a function of the contents
(src/contents.rs lines 105-142). -/
def parse_toml_file (contents : List Char) : List (List Char) :=
  parseTomlLines (rustLines contents)

/-- The `File` struct of src/contents.rs lines 9-13. -/
structure File where
  path : List Char
  contents : List Char
  sentences : List (List Char)
deriving DecidableEq, Repr

/-- `File::new` (src/contents.rs lines 16-22): sentences start empty. -/
def File.new (path contents : List Char) : File :=
  ⟨path, contents, []⟩

/-- Rust `Path::file_name` for a textual path: the last component after
splitting at separators, where empty segments and `.` segments are
normalized away and a final `..` component is not a file name. -/
def fileName? (path : List Char) : Option (List Char) :=
  let segs := (path.splitOn '/').filter (fun s => s ≠ [] ∧ s ≠ ['.'])
  match segs.getLast? with
  | none => none
  | some s => if s = ['.', '.'] then none else some s

/-- Index of the last `.` in a file name, if any. -/
def lastDotIdx : List Char → Option Nat
  | [] => none
  | c :: rest =>
    match lastDotIdx rest with
    | some i => some (i + 1)
    | none => if c = '.' then some 0 else none

/-- Rust `Path::extension`: the part of the file name after its last
dot; `none` when there is no file name, no dot, or the only split point
is a leading dot (a dotfile such as `.rs` has no extension). -/
def extension? (path : List Char) : Option (List Char) :=
  match fileName? path with
  | none => none
  | some f =>
    match lastDotIdx f with
    | none => none
    | some 0 => none
    | some i => some (f.drop (i + 1))

/-- `File::parse` (src/contents.rs lines 24-36): dispatch on the
extension; the three recognized extensions overwrite `sentences` with the
extractor output, every other case pushes the raw contents. -/
def File.parse (f : File) : File :=
  match extension? f.path with
  | some e =>
    if e = "rs".toList then ⟨f.path, f.contents, parse_rust_file f.contents⟩
    else if e = "md".toList then ⟨f.path, f.contents, parse_markdown_file f.contents⟩
    else if e = "toml".toList then ⟨f.path, f.contents, parse_toml_file f.contents⟩
    else ⟨f.path, f.contents, f.sentences ++ [f.contents]⟩
  | none => ⟨f.path, f.contents, f.sentences ++ [f.contents]⟩

/-- Whether the path's extension selects one of the three real extractors
in `File::parse`; `false` means the passthrough branch runs. -/
def recognized (p : List Char) : Bool :=
  match extension? p with
  | some e => e = "rs".toList || e = "md".toList || e = "toml".toList
  | none => false

/-! Byte-level model for the slice-safety claims. A Rust `&str` is a
byte sequence that is valid UTF-8, and the extractors slice it at byte
indices returned by `str::find`; slicing panics when an index is out of
bounds or not on a character boundary. Bytes are `Nat` below. -/

/-- UTF-8 continuation byte: high bits `10`. -/
def isContB (b : Nat) : Bool := 128 ≤ b && b < 192

/-- Rust `str::is_char_boundary` at index `i`: start, end, or a byte that
does not continue a multi-byte character. -/
def isBoundaryAt (l : List Nat) (i : Nat) : Bool :=
  i = 0 || i = l.length ||
  (match l[i]? with
   | some b => !isContB b
   | none => false)

/-- Checked model of the Rust slice `&line[i..]`: `none` when Rust would
panic (out of bounds or not a character boundary). -/
def sliceFromB (l : List Nat) (i : Nat) : Option (List Nat) :=
  if i ≤ l.length ∧ isBoundaryAt l i then some (l.drop i) else none

/-- Checked model of the Rust slice `&line[..i]`. -/
def sliceToB (l : List Nat) (i : Nat) : Option (List Nat) :=
  if i ≤ l.length ∧ isBoundaryAt l i then some (l.take i) else none

/-- Length of the UTF-8 encoding led by byte `b`: 1 for ASCII, 2 to 4
for the multi-byte lead ranges, 0 for a byte that cannot lead a
character. -/
def charLen (b : Nat) : Nat :=
  if b < 128 then 1
  else if 194 ≤ b ∧ b ≤ 223 then 2
  else if 224 ≤ b ∧ b ≤ 239 then 3
  else if 240 ≤ b ∧ b ≤ 247 then 4
  else 0

/-- State machine for UTF-8 validity: the first argument counts the
continuation bytes still owed for the current character; at 0 the next
byte must lead a character and owes `charLen` minus one continuations. -/
def utf8Cont : Nat → List Nat → Bool
  | 0, [] => true
  | 0, b :: rest => decide (1 ≤ charLen b) && utf8Cont (charLen b - 1) rest
  | _ + 1, [] => false
  | k + 1, b :: rest => isContB b && utf8Cont k rest

/-- Validity of a byte sequence as UTF-8 (by lead-byte ranges; the
encodings Rust admits in a `str` all satisfy it): each character is a
lead byte followed by its continuation bytes. -/
def utf8ValidB (l : List Nat) : Bool := utf8Cont 0 l

/-- Byte form of `///`. -/
def docMarkB : List Nat := [47, 47, 47]

/-- Byte form of `//!`. -/
def innerMarkB : List Nat := [47, 47, 33]

/-- Byte form of `//`. -/
def lineMarkB : List Nat := [47, 47]

/-- Byte form of `/*`. -/
def openMarkB : List Nat := [47, 42]

/-- Byte form of `*/`. -/
def closeMarkB : List Nat := [42, 47]

/-- The slicing skeleton of one `parse_rust_file` iteration at byte level,
applied to the already-trimmed line (`str::trim` and the final `.trim()`
on an emitted comment are total library calls and are not slice sites).
Every `&line[..]` slice of src/contents.rs lines 45-78 appears as a
checked slice; `none` marks a panic Rust would raise. -/
def rustStepB (inBlock : Bool) (line : List Nat) : Option (Bool × List (List Nat)) :=
  if inBlock then
    match findSub closeMarkB line with
    | some endPos =>
      match sliceToB line endPos with
      | some c => some (false, [c])
      | none => none
    | none => some (true, [line])
  else
    match findSub docMarkB line with
    | some pos =>
      match sliceFromB line (pos + 3) with
      | some c => some (false, [c])
      | none => none
    | none =>
      match findSub innerMarkB line with
      | some pos =>
        match sliceFromB line (pos + 3) with
        | some c => some (false, [c])
        | none => none
      | none =>
        match findSub lineMarkB line with
        | some pos =>
          match sliceFromB line (pos + 2) with
          | some c => some (false, [c])
          | none => none
        | none =>
          match findSub openMarkB line with
          | some startPos =>
            match sliceFromB line (startPos + 2) with
            | some afterStart =>
              match findSub closeMarkB afterStart with
              | some endPos =>
                match sliceToB afterStart endPos with
                | some c => some (false, [c])
                | none => none
              | none => some (true, [afterStart])
            | none => none
          | none => some (false, [])

/-- The slicing skeleton of one `parse_toml_file` iteration at byte level
(src/contents.rs lines 108-139), on the already-trimmed line. The slices
are `&line[1..]`, `&line[1..line.len()-1]`, `&line[..idx]`,
`&line[idx+1..]`. -/
def tomlStepB (line : List Nat) : Option (List (List Nat)) :=
  if line = [] then some []
  else if line.head? = some 35 then
    match sliceFromB line 1 with
    | some c => some [c]
    | none => none
  else if line.head? = some 91 ∧ line.getLast? = some 93 then
    match sliceFromB line 1 with
    | some t =>
      match sliceToB t (t.length - 1) with
      | some c => some [c]
      | none => none
    | none => none
  else
    match findSub [61] line with
    | some idx =>
      match sliceToB line idx, sliceFromB line (idx + 1) with
      | some k, some v => some [k, v]
      | _, _ => none
    | none => some [line]

/-! Model of src/vector.rs. The external Qdrant client and the embedding
vectors (floating point) are collaborators outside the core; each call
outcome is an oracle parameter. -/

/-- The `VectorDB` struct of src/vector.rs lines 17-21 (the client handle
carries no state the claims mention). -/
structure VectorDB where
  collection : List Char
  id : Nat
deriving DecidableEq, Repr

/-- `VectorDB::new` (src/vector.rs lines 24-27): collection from the
environment with default `"."`, id starts at 0. -/
def VectorDB.new (envCollection : Option (List Char)) : VectorDB :=
  ⟨(match envCollection with
    | some c => c
    | none => ".".toList), 0⟩

/-- `VectorDB::upsert_embedding` (src/vector.rs lines 54-72). The payload
conversion may fail (`map_err`, early return), then the upsert request is
built with `self.id` as the point id and sent; a store failure propagates
with `?` before `self.id += 1` runs, so only a fully successful call
increments the counter (a `u64`, hence modulo `2 ^ 64`). The returned
`Nat` is the point id used in the request of a successful call. -/
def upsert_embedding (db : VectorDB) (payloadOk : Bool) (upsertOk : Bool) :
    Except Unit Nat × VectorDB :=
  if payloadOk = false then (Except.error (), db)
  else if upsertOk = false then (Except.error (), db)
  else (Except.ok db.id, ⟨db.collection, (db.id + 1) % 2 ^ 64⟩)

/-- A sequence of `upsert_embedding` calls with given oracle outcomes:
the ids used by the successful calls, and the final state. -/
def runUpserts (db : VectorDB) : List (Bool × Bool) → List Nat × VectorDB
  | [] => ([], db)
  | step :: rest =>
    match upsert_embedding db step.1 step.2 with
    | (Except.ok i, db') =>
      let r := runUpserts db' rest
      (i :: r.1, r.2)
    | (Except.error _, db') => runUpserts db' rest

/-- Number of fully successful calls in a trace of oracle outcomes. -/
def successCount (trace : List (Bool × Bool)) : Nat :=
  (trace.filter (fun s => s.1 && s.2)).length

/-- The fields of the `SearchPoints` request that `VectorDB::search`
fills explicitly (src/vector.rs lines 81-87); the rest is defaulted. -/
structure SearchPoints where
  collection_name : List Char
  limit : Nat
  with_payload : Bool
deriving DecidableEq, Repr

/-- The request built by `VectorDB::search`: the collection, `limit: 1`,
payload enabled. -/
def mkSearchPoints (db : VectorDB) : SearchPoints :=
  ⟨db.collection, 1, true⟩

/-- Observable outcome of `VectorDB::search`: an error returned with `?`,
a panic of the indexing `search_result.result[0]`, or a returned point. -/
inductive SearchOutcome (P : Type) where
  | errResult : SearchOutcome P
  | panics : SearchOutcome P
  | ret : P → SearchOutcome P
deriving DecidableEq, Repr

/-- `VectorDB::search` (src/vector.rs lines 74-92) against a store
oracle: build the request, propagate a store error with `?`, then take
`result[0]` — unchecked indexing that panics on an empty result list. -/
def search {P : Type} (db : VectorDB) (store : SearchPoints → Except Unit (List P)) :
    SearchOutcome P :=
  match store (mkSearchPoints db) with
  | Except.error _ => SearchOutcome.errResult
  | Except.ok result =>
    match result[0]? with
    | some p => SearchOutcome.ret p
    | none => SearchOutcome.panics

end RustyRag

namespace RustyRag

/-! Helper lemmas about `findSub`, UTF-8 byte sequences and character
boundaries. -/

/-- A hit of `findSub` is a prefix of the tail it points at. -/
theorem findSub_isPrefixOf {α : Type} [DecidableEq α] {pat l : List α} {i : Nat}
    (h : findSub pat l = some i) : pat.isPrefixOf (l.drop i) = true := by
  unfold findSub at h
  exact List.find?_some (p := fun j => pat.isPrefixOf (l.drop j)) h

/-- A hit of `findSub` lies within the searched list. -/
theorem findSub_le {α : Type} [DecidableEq α] {pat l : List α} {i : Nat}
    (h : findSub pat l = some i) : i ≤ l.length := by
  unfold findSub at h
  have hm := List.mem_of_find?_eq_some h
  have := List.mem_range.mp hm
  omega

/-- The element at offset `k` inside a `findSub` hit is the pattern's. -/
theorem findSub_getElem {α : Type} [DecidableEq α] {pat l : List α} {i k : Nat}
    (h : findSub pat l = some i) (hk : k < pat.length) :
    l[i + k]? = pat[k]? := by
  have hp := findSub_isPrefixOf h
  have hpre : pat <+: l.drop i := List.isPrefixOf_iff_prefix.mp hp
  obtain ⟨t, ht⟩ := hpre
  rw [← List.getElem?_drop, ← ht, List.getElem?_append_left hk]

/-- A byte below 128 or at least 192 is not a continuation byte. -/
theorem isContB_false {b : Nat} (h : b < 128 ∨ 192 ≤ b) : isContB b = false := by
  unfold isContB
  simp only [Bool.and_eq_false_iff, decide_eq_false_iff_not]
  omega

/-- A continuation byte lies in the range 128 to 191. -/
theorem isContB_range {b : Nat} (h : isContB b = true) : 128 ≤ b ∧ b < 192 := by
  unfold isContB at h
  simp only [Bool.and_eq_true, decide_eq_true_eq] at h
  exact h

/-- A byte that can lead a character is not a continuation byte. -/
theorem charLen_pos_not_cont {b : Nat} (h : 1 ≤ charLen b) : isContB b = false := by
  by_cases h1 : b < 128
  · exact isContB_false (Or.inl h1)
  · apply isContB_false
    right
    unfold charLen at h
    rw [if_neg h1] at h
    by_cases h2 : 194 ≤ b ∧ b ≤ 223
    · omega
    · rw [if_neg h2] at h
      by_cases h3 : 224 ≤ b ∧ b ≤ 239
      · omega
      · rw [if_neg h3] at h
        by_cases h4 : 240 ≤ b ∧ b ≤ 247
        · omega
        · rw [if_neg h4] at h
          omega

/-- A valid UTF-8 sequence does not start with a continuation byte. -/
theorem utf8_head_not_cont {l : List Nat} (hv : utf8ValidB l = true) {b : Nat}
    (hb : l[0]? = some b) : isContB b = false := by
  cases l with
  | nil => simp at hb
  | cons x rest =>
    have hxb : x = b := by simpa using hb
    subst hxb
    rw [utf8ValidB, utf8Cont] at hv
    simp only [Bool.and_eq_true, decide_eq_true_eq] at hv
    exact charLen_pos_not_cont hv.1

/-- Dropping past an ASCII byte leaves a valid UTF-8 sequence, from any
state of the validity machine. -/
theorem utf8Cont_drop : ∀ (l : List Nat) (k : Nat), utf8Cont k l = true →
    ∀ (i b : Nat), l[i]? = some b → b < 128 → utf8Cont 0 (l.drop (i + 1)) = true := by
  intro l
  induction l with
  | nil =>
    intro k _ i b hb
    simp at hb
  | cons x rest ih =>
    intro k hv i b hb hb128
    cases k with
    | zero =>
      rw [utf8Cont] at hv
      simp only [Bool.and_eq_true, decide_eq_true_eq] at hv
      cases i with
      | zero =>
        have hxb : x = b := by simpa using hb
        subst hxb
        have hcl : charLen x = 1 := by
          unfold charLen
          rw [if_pos hb128]
        rw [hcl] at hv
        simpa using hv.2
      | succ j =>
        have hj : rest[j]? = some b := by simpa using hb
        have := ih (charLen x - 1) hv.2 j b hj hb128
        simpa using this
    | succ m =>
      rw [utf8Cont] at hv
      simp only [Bool.and_eq_true] at hv
      cases i with
      | zero =>
        have hxb : x = b := by simpa using hb
        subst hxb
        have := isContB_range hv.1
        omega
      | succ j =>
        have hj : rest[j]? = some b := by simpa using hb
        have := ih m hv.2 j b hj hb128
        simpa using this

/-- Dropping past an ASCII byte of a valid UTF-8 sequence leaves a valid
UTF-8 sequence. -/
theorem utf8_drop_valid : ∀ (l : List Nat), utf8ValidB l = true →
    ∀ (i b : Nat), l[i]? = some b → b < 128 → utf8ValidB (l.drop (i + 1)) = true := by
  intro l hv i b hb hb128
  exact utf8Cont_drop l 0 hv i b hb hb128

/-- The end of a list is a character boundary. -/
theorem boundary_end (l : List Nat) : isBoundaryAt l l.length = true := by
  unfold isBoundaryAt
  simp

/-- A position holding an ASCII byte is a character boundary. -/
theorem boundary_at_ascii {l : List Nat} {i b : Nat} (h : l[i]? = some b)
    (hb : b < 128) : isBoundaryAt l i = true := by
  unfold isBoundaryAt
  rw [h]
  simp [isContB_false (Or.inl hb)]

/-- In a valid UTF-8 sequence, the position after an ASCII byte is a
character boundary. -/
theorem boundary_after_ascii {l : List Nat} {i b : Nat} (hv : utf8ValidB l = true)
    (h : l[i]? = some b) (hb : b < 128) : isBoundaryAt l (i + 1) = true := by
  have hs := utf8_drop_valid l hv i b h hb
  have hlt : i < l.length := (List.getElem?_eq_some_iff.mp h).1
  cases hd : l.drop (i + 1) with
  | nil =>
    have hle : l.length ≤ i + 1 := List.drop_eq_nil_iff.mp hd
    have heq : i + 1 = l.length := by omega
    rw [heq]
    exact boundary_end l
  | cons c rest =>
    have hc : l[i + 1]? = some c := by
      have h0 : (l.drop (i + 1))[0]? = some c := by
        rw [hd]
        simp
      rw [List.getElem?_drop] at h0
      simpa using h0
    have hcc : isContB c = false := by
      rw [hd] at hs
      exact utf8_head_not_cont hs (by simp)
    unfold isBoundaryAt
    rw [hc]
    simp [hcc]

/-- The checked slice `&line[i+1..]` succeeds after an ASCII byte of a
valid UTF-8 line. -/
theorem sliceFromB_after_ascii {l : List Nat} {i b : Nat} (hv : utf8ValidB l = true)
    (h : l[i]? = some b) (hb : b < 128) :
    sliceFromB l (i + 1) = some (l.drop (i + 1)) := by
  have hlt : i < l.length := (List.getElem?_eq_some_iff.mp h).1
  unfold sliceFromB
  rw [if_pos ⟨by omega, boundary_after_ascii hv h hb⟩]

/-- The checked slice `&line[..i]` succeeds at a position holding an
ASCII byte. -/
theorem sliceToB_at_ascii {l : List Nat} {i b : Nat} (h : l[i]? = some b)
    (hb : b < 128) : sliceToB l i = some (l.take i) := by
  have hlt : i < l.length := (List.getElem?_eq_some_iff.mp h).1
  unfold sliceToB
  rw [if_pos ⟨by omega, boundary_at_ascii h hb⟩]

end RustyRag

namespace RustyRag

/-- Every byte-level slice of one `parse_rust_file` iteration is in
bounds and on a character boundary for a valid UTF-8 line: the step
never reaches a panicking slice. -/
theorem rustStepB_total (l : List Nat) (hv : utf8ValidB l = true) (inB : Bool) :
    (rustStepB inB l).isSome = true := by
  cases inB with
  | true =>
    cases hf : findSub closeMarkB l with
    | none => simp [rustStepB, hf]
    | some endPos =>
      have hx : l[endPos]? = some 42 := by
        have h0 : l[endPos + 0]? = closeMarkB[0]? := findSub_getElem hf (by decide)
        simpa [closeMarkB] using h0
      have hc := sliceToB_at_ascii hx (by omega)
      simp [rustStepB, hf, hc]
  | false =>
    cases hd : findSub docMarkB l with
    | some pos =>
      have hx : l[pos + 2]? = some 47 := by
        have h0 : l[pos + 2]? = docMarkB[2]? := findSub_getElem hd (by decide)
        simpa [docMarkB] using h0
      have hc := sliceFromB_after_ascii hv hx (by omega)
      have he : pos + 2 + 1 = pos + 3 := by omega
      rw [he] at hc
      simp [rustStepB, hd, hc]
    | none =>
      cases hi : findSub innerMarkB l with
      | some pos =>
        have hx : l[pos + 2]? = some 33 := by
          have h0 : l[pos + 2]? = innerMarkB[2]? := findSub_getElem hi (by decide)
          simpa [innerMarkB] using h0
        have hc := sliceFromB_after_ascii hv hx (by omega)
        have he : pos + 2 + 1 = pos + 3 := by omega
        rw [he] at hc
        simp [rustStepB, hd, hi, hc]
      | none =>
        cases hl : findSub lineMarkB l with
        | some pos =>
          have hx : l[pos + 1]? = some 47 := by
            have h0 : l[pos + 1]? = lineMarkB[1]? := findSub_getElem hl (by decide)
            simpa [lineMarkB] using h0
          have hc := sliceFromB_after_ascii hv hx (by omega)
          have he : pos + 1 + 1 = pos + 2 := by omega
          rw [he] at hc
          simp [rustStepB, hd, hi, hl, hc]
        | none =>
          cases ho : findSub openMarkB l with
          | none => simp [rustStepB, hd, hi, hl, ho]
          | some startPos =>
            have hx : l[startPos + 1]? = some 42 := by
              have h0 : l[startPos + 1]? = openMarkB[1]? := findSub_getElem ho (by decide)
              simpa [openMarkB] using h0
            have hc := sliceFromB_after_ascii hv hx (by omega)
            have he : startPos + 1 + 1 = startPos + 2 := by omega
            rw [he] at hc
            cases hcl : findSub closeMarkB (l.drop (startPos + 2)) with
            | none => simp [rustStepB, hd, hi, hl, ho, hc, hcl]
            | some endPos =>
              have hy : (l.drop (startPos + 2))[endPos]? = some 42 := by
                have h0 : (l.drop (startPos + 2))[endPos + 0]? = closeMarkB[0]? :=
                  findSub_getElem hcl (by decide)
                simpa [closeMarkB] using h0
              have hc2 := sliceToB_at_ascii hy (by omega)
              simp [rustStepB, hd, hi, hl, ho, hc, hcl, hc2]

/-- Every byte-level slice of one `parse_toml_file` iteration is in
bounds and on a character boundary for a valid UTF-8 line. -/
theorem tomlStepB_total (l : List Nat) (hv : utf8ValidB l = true) :
    (tomlStepB l).isSome = true := by
  by_cases h0 : l = []
  · simp [tomlStepB, h0]
  · cases hhd : l.head? with
    | none =>
      exact absurd (List.head?_eq_none_iff.mp hhd) h0
    | some b =>
      have hb0 : l[0]? = some b := by
        rw [← List.head?_eq_getElem?]
        exact hhd
      by_cases h35 : b = 35
      · subst h35
        have hc := sliceFromB_after_ascii hv hb0 (by omega)
        have he : (0 : Nat) + 1 = 1 := by omega
        rw [he] at hc
        simp [tomlStepB, h0, hhd, hc]
      · by_cases hbr : l.head? = some 91 ∧ l.getLast? = some 93
        · have h1 := hbr.1
          rw [hhd] at h1
          injection h1 with hb91
          subst hb91
          have hc := sliceFromB_after_ascii hv hb0 (by omega)
          have he : (0 : Nat) + 1 = 1 := by omega
          rw [he] at hc
          have hlast : l[l.length - 1]? = some 93 := by
            rw [← List.getLast?_eq_getElem?]
            exact hbr.2
          have hlen2 : 2 ≤ l.length := by
            rcases hl1 : l.length with _ | n
            · simp [List.length_eq_zero.mp hl1] at hb0
            · rcases n with _ | m
              · rw [hl1] at hlast
                simp at hlast
                rw [hlast] at hb0
                simp at hb0
              · omega
          have hlast2 : (l.drop 1)[(l.drop 1).length - 1]? = some 93 := by
            rw [List.getElem?_drop]
            have harith : 1 + ((l.drop 1).length - 1) = l.length - 1 := by
              simp only [List.length_drop]
              omega
            rw [harith]
            exact hlast
          have hc2 := sliceToB_at_ascii hlast2 (by omega)
          simp only [List.drop_one] at hc hc2
          simp only [List.length_drop, List.length_tail] at hc2
          simp [tomlStepB, h0, hhd, hbr, hc, hc2, h35]
        · have hbr2 : ¬(b = 91 ∧ l.getLast? = some 93) := by
            intro hcon
            apply hbr
            constructor
            · rw [hhd, hcon.1]
            · exact hcon.2
          cases he : findSub [61] l with
          | none => simp [tomlStepB, h0, hhd, h35, hbr2, he]
          | some idx =>
            have hx : l[idx]? = some 61 := by
              have hg : l[idx + 0]? = ([61] : List Nat)[0]? := findSub_getElem he (by decide)
              simpa using hg
            have hk := sliceToB_at_ascii hx (by omega)
            have hv2 := sliceFromB_after_ascii hv hx (by omega)
            simp [tomlStepB, h0, hhd, h35, hbr2, he, hk, hv2]

end RustyRag

namespace RustyRag

/-- C8: extraction is total. For every valid UTF-8 input line, the
byte-level slicing skeletons of the source-comment and structured-config
extractors (the only two that slice at found byte indices) reach no
out-of-bounds or non-boundary slice, in either parser state, so no input
line can make extraction fail; the markdown and passthrough extractors
perform no slicing at all. -/
theorem c8_slice_safety (l : List Nat) (hv : utf8ValidB l = true) :
    (∀ inB : Bool, (rustStepB inB l).isSome = true) ∧ (tomlStepB l).isSome = true :=
  ⟨fun inB => rustStepB_total l hv inB, tomlStepB_total l hv⟩

/-- Witness for C8 at the UTF-8 bytes of the line `é = /* x`. -/
theorem c8_slice_safety_witness :
    utf8ValidB [195, 169, 32, 61, 32, 47, 42, 32, 120] = true ∧
    (rustStepB false [195, 169, 32, 61, 32, 47, 42, 32, 120]).isSome = true ∧
    (tomlStepB [195, 169, 32, 61, 32, 47, 42, 32, 120]).isSome = true :=
  ⟨by decide,
   (c8_slice_safety [195, 169, 32, 61, 32, 47, 42, 32, 120] (by decide)).1 false,
   (c8_slice_safety [195, 169, 32, 61, 32, 47, 42, 32, 120] (by decide)).2⟩

/-- Running a trace of upsert calls from a counter below `2 ^ 64` uses
the consecutive identifiers starting at the counter (modulo `2 ^ 64`,
the width of the Rust `u64`), one per successful call. -/
theorem runUpserts_general :
    ∀ (trace : List (Bool × Bool)) (db : VectorDB), db.id < 2 ^ 64 →
    runUpserts db trace =
      ((List.range (successCount trace)).map (fun n => (db.id + n) % 2 ^ 64),
       ⟨db.collection, (db.id + successCount trace) % 2 ^ 64⟩) := by
  intro trace
  induction trace with
  | nil =>
    intro db hk
    rcases db with ⟨c, k⟩
    have hk2 : k < 2 ^ 64 := hk
    norm_num at hk2
    simp [runUpserts, successCount]
    omega
  | cons step rest ih =>
    intro db hk
    rcases step with ⟨p, u⟩
    cases p with
    | false =>
      have hup : upsert_embedding db false u = (Except.error (), db) := by
        simp [upsert_embedding]
      have hsc : successCount ((false, u) :: rest) = successCount rest := by
        simp [successCount]
      simp only [runUpserts, hup, hsc]
      exact ih db hk
    | true =>
      cases u with
      | false =>
        have hup : upsert_embedding db true false = (Except.error (), db) := by
          simp [upsert_embedding]
        have hsc : successCount ((true, false) :: rest) = successCount rest := by
          simp [successCount]
        simp only [runUpserts, hup, hsc]
        exact ih db hk
      | true =>
        have hup : upsert_embedding db true true =
            (Except.ok db.id, ⟨db.collection, (db.id + 1) % 2 ^ 64⟩) := by
          simp [upsert_embedding]
        have hsc : successCount ((true, true) :: rest) = successCount rest + 1 := by
          simp [successCount]
        have hlt : (db.id + 1) % 2 ^ 64 < 2 ^ 64 := Nat.mod_lt _ (by norm_num)
        simp only [runUpserts, hup, hsc]
        rw [ih ⟨db.collection, (db.id + 1) % 2 ^ 64⟩ hlt]
        have hhead : db.id % 2 ^ 64 = db.id := Nat.mod_eq_of_lt hk
        have h1 : List.map (fun n => (db.id + n) % 2 ^ 64) (List.range (successCount rest + 1)) =
            db.id :: List.map (fun n => ((db.id + 1) % 2 ^ 64 + n) % 2 ^ 64)
              (List.range (successCount rest)) := by
          rw [List.range_succ_eq_map, List.map_cons, List.map_map]
          simp only [Nat.add_zero, hhead]
          congr 1
          apply List.map_congr_left
          intro n _
          simp only [Function.comp]
          rw [Nat.mod_add_mod]
          congr 1
          omega
        have h2 : ((db.id + 1) % 2 ^ 64 + successCount rest) % 2 ^ 64 =
            (db.id + (successCount rest + 1)) % 2 ^ 64 := by
          rw [Nat.mod_add_mod]
          congr 1
          omega
        rw [h1, ← h2]

end RustyRag

namespace RustyRag

/-- C9: over a `VectorDB` lifetime the point identifiers start at 0 and
increase by exactly one per successful insertion — on a fresh `VectorDB`
the id counter is 0; over any trace of call outcomes the identifiers
used by the successful calls are `0, 1, 2, ...` modulo `2 ^ 64` (exactly
`0, 1, 2, ...` while the count of successes fits in the `u64`), the
final counter equals the number of successful calls modulo `2 ^ 64`, and
a call that returns an error leaves the state unchanged. -/
theorem c9_id_monotonic :
    (∀ env : Option (List Char), (VectorDB.new env).id = 0) ∧
    (∀ (env : Option (List Char)) (trace : List (Bool × Bool)),
      (runUpserts (VectorDB.new env) trace).1 =
        (List.range (successCount trace)).map (fun n => n % 2 ^ 64) ∧
      (runUpserts (VectorDB.new env) trace).2.id = successCount trace % 2 ^ 64) ∧
    (∀ (env : Option (List Char)) (trace : List (Bool × Bool)),
      successCount trace ≤ 2 ^ 64 →
      (runUpserts (VectorDB.new env) trace).1 = List.range (successCount trace)) ∧
    (∀ (db : VectorDB) (p u : Bool) (r : Unit) (db' : VectorDB),
      upsert_embedding db p u = (Except.error r, db') → db' = db) := by
  have hgen : ∀ (env : Option (List Char)) (trace : List (Bool × Bool)),
      runUpserts (VectorDB.new env) trace =
        ((List.range (successCount trace)).map (fun n => n % 2 ^ 64),
         ⟨(VectorDB.new env).collection, successCount trace % 2 ^ 64⟩) := by
    intro env trace
    have h := runUpserts_general trace (VectorDB.new env) (by
      show (0 : Nat) < 2 ^ 64
      norm_num)
    simpa [VectorDB.new] using h
  refine ⟨fun env => rfl, ?_, ?_, ?_⟩
  · intro env trace
    rw [hgen env trace]
    exact ⟨rfl, rfl⟩
  · intro env trace hle
    rw [hgen env trace]
    show (List.range (successCount trace)).map (fun n => n % 2 ^ 64) =
      List.range (successCount trace)
    conv_rhs => rw [← List.map_id (List.range (successCount trace))]
    apply List.map_congr_left
    intro n hn
    have hn2 := List.mem_range.mp hn
    have hlt : n < 2 ^ 64 := by omega
    show n % 2 ^ 64 = n
    exact Nat.mod_eq_of_lt hlt
  · intro db p u r db' h
    cases p with
    | false =>
      simp [upsert_embedding] at h
      exact h.symm
    | true =>
      cases u with
      | false =>
        simp [upsert_embedding] at h
        exact h.symm
      | true =>
        simp [upsert_embedding] at h

end RustyRag

namespace RustyRag

/-- Witness for C9: on the trace success, failure, success the ids used
are `[0, 1]`, and a failing call leaves the counter at 5. -/
theorem c9_id_monotonic_witness :
    (successCount [(true, true), (false, true), (true, true)] ≤ 2 ^ 64 ∧
     (runUpserts (VectorDB.new none) [(true, true), (false, true), (true, true)]).1 =
       List.range (successCount [(true, true), (false, true), (true, true)])) ∧
    (upsert_embedding ⟨[], 5⟩ false true = (Except.error (), ⟨[], 5⟩) ∧
     (⟨[], 5⟩ : VectorDB) = ⟨[], 5⟩) :=
  ⟨⟨by decide,
    c9_id_monotonic.2.2.1 none [(true, true), (false, true), (true, true)] (by decide)⟩,
   ⟨by rfl, c9_id_monotonic.2.2.2 ⟨[], 5⟩ false true () ⟨[], 5⟩ (by rfl)⟩⟩

/-- C10: `VectorDB::search` asks the store for at most one point
(`limit: 1` in the request it builds) and returns `result[0]` by
unchecked indexing — a store error propagates as an error, a non-empty
result returns its first point, and an empty result list panics, so the
call is panic-free only when the store returns at least one point. -/
theorem c10_search_limit_one :
    (∀ db : VectorDB, (mkSearchPoints db).limit = 1) ∧
    (∀ (P : Type) (db : VectorDB) (store : SearchPoints → Except Unit (List P)),
      store (mkSearchPoints db) = Except.ok [] →
        search db store = SearchOutcome.panics) ∧
    (∀ (P : Type) (db : VectorDB) (store : SearchPoints → Except Unit (List P))
        (p : P) (rest : List P),
      store (mkSearchPoints db) = Except.ok (p :: rest) →
        search db store = SearchOutcome.ret p) ∧
    (∀ (P : Type) (db : VectorDB) (store : SearchPoints → Except Unit (List P))
        (e : Unit),
      store (mkSearchPoints db) = Except.error e →
        search db store = SearchOutcome.errResult) := by
  refine ⟨fun db => rfl, ?_, ?_, ?_⟩
  · intro P db store h
    simp [search, h]
  · intro P db store p rest h
    simp [search, h]
  · intro P db store e h
    simp [search, h]

/-- Witness for C10: an empty store result panics, a singleton result is
returned. -/
theorem c10_search_limit_one_witness :
    ((fun _ => Except.ok [] : SearchPoints → Except Unit (List Nat))
       (mkSearchPoints (VectorDB.new none)) = Except.ok [] ∧
     search (VectorDB.new none)
       (fun _ => Except.ok [] : SearchPoints → Except Unit (List Nat)) =
       SearchOutcome.panics) ∧
    ((fun _ => Except.ok [7] : SearchPoints → Except Unit (List Nat))
       (mkSearchPoints (VectorDB.new none)) = Except.ok [7] ∧
     search (VectorDB.new none)
       (fun _ => Except.ok [7] : SearchPoints → Except Unit (List Nat)) =
       SearchOutcome.ret 7) :=
  ⟨⟨rfl, c10_search_limit_one.2.1 Nat (VectorDB.new none)
      (fun _ => Except.ok []) rfl⟩,
   ⟨rfl, c10_search_limit_one.2.2.1 Nat (VectorDB.new none)
      (fun _ => Except.ok [7]) 7 [] rfl⟩⟩

end RustyRag

namespace RustyRag

/-- Unfolding of `File::parse` on a record literal. -/
theorem parse_eq (p c : List Char) (s : List (List Char)) :
    File.parse ⟨p, c, s⟩ =
      (match extension? p with
       | some e =>
         if e = "rs".toList then ⟨p, c, parse_rust_file c⟩
         else if e = "md".toList then ⟨p, c, parse_markdown_file c⟩
         else if e = "toml".toList then ⟨p, c, parse_toml_file c⟩
         else ⟨p, c, s ++ [c]⟩
       | none => ⟨p, c, s ++ [c]⟩) := rfl

/-- `File::parse` on a path with extension `rs` runs the source-comment
extractor and overwrites `sentences`. -/
theorem parse_rs {p : List Char} (h : extension? p = some ("rs".toList))
    (c : List Char) (s : List (List Char)) :
    File.parse ⟨p, c, s⟩ = ⟨p, c, parse_rust_file c⟩ := by
  rw [parse_eq, h]
  rfl

/-- `File::parse` on a path with extension `md` runs the markdown
extractor and overwrites `sentences`. -/
theorem parse_md {p : List Char} (h : extension? p = some ("md".toList))
    (c : List Char) (s : List (List Char)) :
    File.parse ⟨p, c, s⟩ = ⟨p, c, parse_markdown_file c⟩ := by
  rw [parse_eq, h]
  rfl

/-- `File::parse` on a path with extension `toml` runs the
structured-config extractor and overwrites `sentences`. -/
theorem parse_toml {p : List Char} (h : extension? p = some ("toml".toList))
    (c : List Char) (s : List (List Char)) :
    File.parse ⟨p, c, s⟩ = ⟨p, c, parse_toml_file c⟩ := by
  rw [parse_eq, h]
  rfl

/-- `File::parse` on any other path pushes the raw contents onto the
existing `sentences`. -/
theorem parse_other {p : List Char} (h : recognized p = false)
    (c : List Char) (s : List (List Char)) :
    File.parse ⟨p, c, s⟩ = ⟨p, c, s ++ [c]⟩ := by
  rw [parse_eq]
  cases hext : extension? p with
  | none => rfl
  | some e =>
    unfold recognized at h
    rw [hext] at h
    simp only [Bool.or_eq_false_iff, decide_eq_false_iff_not] at h
    dsimp only
    rw [if_neg h.1.1, if_neg h.1.2, if_neg h.2]

end RustyRag

namespace RustyRag

/-- C1 counterexample: the code trims the text after `///` before
pushing it, so the line `/// doc /* not-a-block` emits the sentence
`doc /* not-a-block` and not the claimed string with a leading space. -/
theorem c1_counterexample :
    parse_rust_file ("/// doc /* not-a-block".toList) = ["doc /* not-a-block".toList] ∧
    ¬ parse_rust_file ("/// doc /* not-a-block".toList) = [" doc /* not-a-block".toList] := by
  constructor
  · decide
  · decide

/-- C1 (amended): in Normal state, marker matching follows the exact
priority order `///`, `//!`, `//`, `/*`, the first match winning and at
most one sentence pushed per line; in particular the line
`/// doc /* not-a-block` emits the single trimmed doc-comment sentence
`doc /* not-a-block` (the code trims after the marker, dropping the
leading space) and the block-comment branch does not fire. -/
theorem c1_marker_priority :
    (∀ (t : List Char) (pos : Nat), findSub docMark t = some pos →
      rustClassify false t = (false, [rustTrim (t.drop (pos + 3))])) ∧
    (∀ (t : List Char) (pos : Nat), findSub docMark t = none →
      findSub innerMark t = some pos →
      rustClassify false t = (false, [rustTrim (t.drop (pos + 3))])) ∧
    (∀ (t : List Char) (pos : Nat), findSub docMark t = none →
      findSub innerMark t = none → findSub lineMark t = some pos →
      rustClassify false t = (false, [rustTrim (t.drop (pos + 2))])) ∧
    (∀ (t : List Char) (pos : Nat), findSub docMark t = none →
      findSub innerMark t = none → findSub lineMark t = none →
      findSub openMark t = some pos →
      rustClassify false t =
        (match findSub closeMark (t.drop (pos + 2)) with
         | some endPos => (false, [(t.drop (pos + 2)).take endPos])
         | none => (true, [t.drop (pos + 2)]))) ∧
    (∀ (inB : Bool) (t : List Char), (rustClassify inB t).2.length ≤ 1) ∧
    (∀ (inB : Bool) (raw : List Char),
      parseRustLine inB raw = rustClassify inB (rustTrim raw)) ∧
    parse_rust_file ("/// doc /* not-a-block".toList) = ["doc /* not-a-block".toList] := by
  refine ⟨?_, ?_, ?_, ?_, ?_, fun inB raw => rfl, by decide⟩
  · intro t pos h
    simp [rustClassify, h]
  · intro t pos h1 h2
    simp [rustClassify, h1, h2]
  · intro t pos h1 h2 h3
    simp [rustClassify, h1, h2, h3]
  · intro t pos h1 h2 h3 h4
    simp [rustClassify, h1, h2, h3, h4]
  · intro inB t
    unfold rustClassify
    repeat' split
    all_goals try simp
    all_goals (split <;> simp)

/-- Witness for C1 at the trimmed line `/// x`. -/
theorem c1_marker_priority_witness :
    findSub docMark ("/// x".toList) = some 0 ∧
    rustClassify false ("/// x".toList) =
      (false, [rustTrim (("/// x".toList).drop (0 + 3))]) :=
  ⟨by decide, c1_marker_priority.1 ("/// x".toList) 0 (by decide)⟩

/-- C2 counterexample: the remainder after `/*` is pushed without
trimming, so the opening line of the claimed three-line input emits
a sentence with a leading space, not `start`. -/
theorem c2_counterexample :
    parse_rust_file ("/* start\nmiddle\nend */".toList) =
      [" start".toList, "middle".toList, "end ".toList] ∧
    ¬ parse_rust_file ("/* start\nmiddle\nend */".toList) =
      ["start".toList, "middle".toList, "end ".toList] := by
  constructor
  · decide
  · decide

/-- C2 (amended): the block-comment state persists across lines, a line
without `*/` inside a block comment is emitted as its trimmed self, the
closing line is truncated at the `*/` marker, and the remainder of the
opening line after `/*` is emitted as is (untrimmed): the three-line
input yields the sentences with a leading space on the first. -/
theorem c2_block_comment_spanning :
    (∀ t : List Char, findSub closeMark t = none →
      rustClassify true t = (true, [t])) ∧
    (∀ (t : List Char) (endPos : Nat), findSub closeMark t = some endPos →
      rustClassify true t = (false, [t.take endPos])) ∧
    (∀ (inB : Bool) (raw : List Char),
      parseRustLine inB raw = rustClassify inB (rustTrim raw)) ∧
    parse_rust_file ("/* start\nmiddle\nend */".toList) =
      [" start".toList, "middle".toList, "end ".toList] := by
  refine ⟨?_, ?_, fun inB raw => rfl, by decide⟩
  · intro t h
    simp [rustClassify, h]
  · intro t endPos h
    simp [rustClassify, h]

/-- Witness for C2 at the trimmed line `middle`. -/
theorem c2_block_comment_spanning_witness :
    findSub closeMark ("middle".toList) = none ∧
    rustClassify true ("middle".toList) = (true, ["middle".toList]) :=
  ⟨by decide, c2_block_comment_spanning.1 ("middle".toList) (by decide)⟩

/-- C3 counterexample: on a final path segment `.rs` the code finds no
extension (Rust `Path::extension` treats a leading-dot-only file name as
extensionless) and passes the contents through unchanged, while the
claim's rule (substring after the last dot, here `rs`) would dispatch to
the source-comment extractor, which would instead emit `x`. -/
theorem c3_counterexample :
    (File.parse (File.new (".rs".toList) ("// x".toList))).sentences = ["// x".toList] ∧
    parse_rust_file ("// x".toList) = ["x".toList] ∧
    ¬ (File.parse (File.new (".rs".toList) ("// x".toList))).sentences = ["x".toList] := by
  refine ⟨by decide, by decide, by decide⟩

/-- C3 (amended): the classifier dispatches on Rust `Path::extension` of
the path — the substring after the last `.` of the final segment, except
that a file name whose only `.` is a leading one has no extension — with
`rs`, `md`, `toml` selecting their extractors and any other result
(including no extension) selecting passthrough; `a/b/c.rs` goes to the
source-comment extractor, `a/b/c` to passthrough, and a final segment
`.rs` also to passthrough. -/
theorem c3_extension_dispatch :
    (∀ p c : List Char, extension? p = some ("rs".toList) →
      (File.new p c).parse = ⟨p, c, parse_rust_file c⟩) ∧
    (∀ p c : List Char, extension? p = some ("md".toList) →
      (File.new p c).parse = ⟨p, c, parse_markdown_file c⟩) ∧
    (∀ p c : List Char, extension? p = some ("toml".toList) →
      (File.new p c).parse = ⟨p, c, parse_toml_file c⟩) ∧
    (∀ p c : List Char, recognized p = false →
      (File.new p c).parse = ⟨p, c, [c]⟩) ∧
    extension? ("a/b/c.rs".toList) = some ("rs".toList) ∧
    extension? ("a/b/c".toList) = none ∧
    extension? (".rs".toList) = none := by
  refine ⟨?_, ?_, ?_, ?_, by decide, by decide, by decide⟩
  · intro p c h
    exact parse_rs h c []
  · intro p c h
    exact parse_md h c []
  · intro p c h
    exact parse_toml h c []
  · intro p c h
    exact parse_other h c []

/-- Witness for C3 at the path `a/b/c.rs`. -/
theorem c3_extension_dispatch_witness :
    extension? ("a/b/c.rs".toList) = some ("rs".toList) ∧
    (File.new ("a/b/c.rs".toList) ("// x".toList)).parse =
      ⟨"a/b/c.rs".toList, "// x".toList, parse_rust_file ("// x".toList)⟩ :=
  ⟨by decide, c3_extension_dispatch.1 ("a/b/c.rs".toList) ("// x".toList) (by decide)⟩

/-- C4: for a freshly loaded record whose extension is not `rs`, `md` or
`toml` (including no extension), the single extraction pass leaves
`sentences` equal to exactly the one-element sequence holding the raw
contents, with the contents unmodified. -/
theorem c4_passthrough :
    ∀ (p c : List Char), recognized p = false →
      ((File.new p c).parse).sentences = [c] ∧ ((File.new p c).parse).contents = c := by
  intro p c h
  have he := parse_other h c []
  refine ⟨?_, ?_⟩
  · show (File.parse ⟨p, c, []⟩).sentences = [c]
    rw [he]
    rfl
  · show (File.parse ⟨p, c, []⟩).contents = c
    rw [he]


/-- Witness for C4 at the extensionless path `a/b/c`. -/
theorem c4_passthrough_witness :
    recognized ("a/b/c".toList) = false ∧
    ((File.new ("a/b/c".toList) ("x".toList)).parse).sentences = ["x".toList] ∧
    ((File.new ("a/b/c".toList) ("x".toList)).parse).contents = "x".toList :=
  ⟨by decide,
   (c4_passthrough ("a/b/c".toList) ("x".toList) (by decide)).1,
   (c4_passthrough ("a/b/c".toList) ("x".toList) (by decide)).2⟩

/-- C5 counterexample: on a passthrough path `parse` pushes the contents
instead of overwriting `sentences`, so a second run on the unchanged
record yields two copies, not the sequence produced by the first run. -/
theorem c5_counterexample :
    ((File.new ("a/b/c".toList) ("x".toList)).parse.parse).sentences =
      ["x".toList, "x".toList] ∧
    ((File.new ("a/b/c".toList) ("x".toList)).parse).sentences = ["x".toList] ∧
    ¬ (["x".toList, "x".toList] : List (List Char)) = ["x".toList] := by
  refine ⟨by decide, by decide, by decide⟩

/-- C5 (amended): extraction is deterministic — on a freshly loaded
record the result is a function of path and contents alone — and for the
`rs`, `md`, `toml` extractors re-running `parse` on the unchanged record
is idempotent; for every other extension `parse` appends the contents
again, so a second run yields the previous sentences plus one more copy
of the contents (on a fresh record, two copies). -/
theorem c5_determinism :
    (∀ f : File, recognized f.path = true → f.parse.parse = f.parse) ∧
    (∀ f : File, recognized f.path = false →
      f.parse.parse.sentences = f.parse.sentences ++ [f.contents]) ∧
    ((File.new ("a/b/c".toList) ("x".toList)).parse.parse).sentences =
      ["x".toList, "x".toList] := by
  refine ⟨?_, ?_, by decide⟩
  · intro f h
    rcases f with ⟨p, c, s⟩
    unfold recognized at h
    cases hext : extension? p with
    | none =>
      rw [hext] at h
      simp at h
    | some e =>
      rw [hext] at h
      simp only [Bool.or_eq_true, decide_eq_true_eq] at h
      rcases h with (h | h) | h
      · subst h
        show (File.parse ⟨p, c, s⟩).parse = File.parse ⟨p, c, s⟩
        rw [parse_rs hext c s]
        show File.parse ⟨p, c, parse_rust_file c⟩ = _
        rw [parse_rs hext c (parse_rust_file c)]
      · subst h
        show (File.parse ⟨p, c, s⟩).parse = File.parse ⟨p, c, s⟩
        rw [parse_md hext c s]
        show File.parse ⟨p, c, parse_markdown_file c⟩ = _
        rw [parse_md hext c (parse_markdown_file c)]
      · subst h
        show (File.parse ⟨p, c, s⟩).parse = File.parse ⟨p, c, s⟩
        rw [parse_toml hext c s]
        show File.parse ⟨p, c, parse_toml_file c⟩ = _
        rw [parse_toml hext c (parse_toml_file c)]
  · intro f h
    rcases f with ⟨p, c, s⟩
    show (File.parse ⟨p, c, s⟩).parse.sentences =
      (File.parse ⟨p, c, s⟩).sentences ++ [c]
    rw [parse_other h c s]
    show (File.parse ⟨p, c, s ++ [c]⟩).sentences = _
    rw [parse_other h c (s ++ [c])]

/-- Witness for C5 at a fresh `rs` record: re-running `parse` changes
nothing. -/
theorem c5_determinism_witness :
    recognized ("a.rs".toList) = true ∧
    (File.mk ("a.rs".toList) ("// x".toList) []).parse.parse =
      (File.mk ("a.rs".toList) ("// x".toList) []).parse :=
  ⟨by decide, c5_determinism.1 ⟨"a.rs".toList, "// x".toList, []⟩ (by decide)⟩

end RustyRag

namespace RustyRag

/-- C6: in the markdown extractor a line whose trimmed form starts with
the fence toggles the state and is never emitted; inside a code block
every non-fence line is discarded; in prose a non-fence line is emitted
as its trimmed self exactly when it is non-empty and does not start with
`#`, so headings and blank lines produce zero sentences. -/
theorem c6_markdown :
    (∀ (inC : Bool) (t : List Char), fenceMark.isPrefixOf t = true →
      mdClassify inC t = (!inC, [])) ∧
    (∀ t : List Char, fenceMark.isPrefixOf t = false →
      mdClassify true t = (true, [])) ∧
    (∀ t : List Char, fenceMark.isPrefixOf t = false → t ≠ [] →
      t.head? ≠ some '#' → mdClassify false t = (false, [t])) ∧
    (∀ t : List Char, t = [] ∨ t.head? = some '#' →
      mdClassify false t = (false, [])) ∧
    (∀ (inC : Bool) (raw : List Char),
      parseMdLine inC raw = mdClassify inC (rustTrim raw)) ∧
    parseMdLine false ("# Title".toList) = (false, []) ∧
    parseMdLine false ("".toList) = (false, []) ∧
    parse_markdown_file ("```\ncode\n```\nprose".toList) = ["prose".toList] := by
  refine ⟨?_, ?_, ?_, ?_, fun inC raw => rfl, by decide, by decide, by decide⟩
  · intro inC t h
    simp [mdClassify, h]
  · intro t h
    simp [mdClassify, h]
  · intro t h1 h2 h3
    simp [mdClassify, h1, h2, h3]
  · intro t h
    rcases h with h | h
    · subst h
      decide
    · obtain ⟨rest, hrest⟩ := List.head?_eq_some_iff.mp h
      subst hrest
      have hf : fenceMark.isPrefixOf ('#' :: rest) = false := rfl
      simp [mdClassify, hf]

/-- Witness for C6 at the fence line with a language tag. -/
theorem c6_markdown_witness :
    fenceMark.isPrefixOf ("``` rust".toList) = true ∧
    mdClassify false ("``` rust".toList) = (!false, []) :=
  ⟨by decide, c6_markdown.1 false ("``` rust".toList) (by decide)⟩

/-- C7: the structured-config extractor classifies each trimmed line
independently in priority order — empty discarded; `#` emits
`Comment:` plus the trimmed text after the marker; `[` with matching
final `]` emits `Table:` plus the trimmed bracket contents; a first
`=` splits into trimmed key and value joined by ` = `; anything else is
emitted verbatim. -/
theorem c7_toml_classification :
    tomlClassify ([] : List Char) = [] ∧
    (∀ t : List Char, t.head? = some '#' →
      tomlClassify t = ["Comment: ".toList ++ rustTrim (t.drop 1)]) ∧
    (∀ t : List Char, t.head? ≠ some '#' → t.head? = some '[' →
      t.getLast? = some ']' →
      tomlClassify t = ["Table: ".toList ++ rustTrim ((t.drop 1).take (t.length - 2))]) ∧
    (∀ (t : List Char) (idx : Nat), t.head? ≠ some '#' →
      ¬(t.head? = some '[' ∧ t.getLast? = some ']') →
      findSub ['='] t = some idx →
      tomlClassify t = [rustTrim (t.take idx) ++ " = ".toList ++ rustTrim (t.drop (idx + 1))]) ∧
    (∀ t : List Char, t ≠ [] → t.head? ≠ some '#' →
      ¬(t.head? = some '[' ∧ t.getLast? = some ']') →
      findSub ['='] t = none → tomlClassify t = [t]) ∧
    (∀ raw : List Char, parseTomlLine raw = tomlClassify (rustTrim raw)) ∧
    parseTomlLine ("# hello".toList) = ["Comment: hello".toList] ∧
    parseTomlLine ("[section]".toList) = ["Table: section".toList] ∧
    parseTomlLine ("key=  value".toList) = ["key = value".toList] ∧
    parseTomlLine ("plain words".toList) = ["plain words".toList] := by
  refine ⟨by decide, ?_, ?_, ?_, ?_, fun raw => rfl, by decide, by decide, by decide,
    by decide⟩
  · intro t h
    have hne : t ≠ [] := by
      intro he
      subst he
      simp at h
    simp [tomlClassify, hne, h]
  · intro t h1 h2 h3
    have hne : t ≠ [] := by
      intro he
      subst he
      simp at h2
    simp [tomlClassify, hne, h1, h2, h3]
  · intro t idx h1 h2 h3
    have hne : t ≠ [] := by
      intro he
      subst he
      have hnone : findSub (['='] : List Char) ([] : List Char) = none := by decide
      rw [hnone] at h3
      exact Option.noConfusion h3
    simp [tomlClassify, hne, h1, h2, h3]
  · intro t hne h1 h2 h3
    simp [tomlClassify, hne, h1, h2, h3]

/-- Witness for C7 at the comment line `# hi`. -/
theorem c7_toml_classification_witness :
    ("# hi".toList).head? = some '#' ∧
    tomlClassify ("# hi".toList) =
      ["Comment: ".toList ++ rustTrim (("# hi".toList).drop 1)] :=
  ⟨by decide, c7_toml_classification.2.1 ("# hi".toList) (by decide)⟩

end RustyRag
